import Mathlib

/-!
Verification of the packed error-code subsystem of `src/src/util/src/hse_err.c`
(`merr_pack`, `merr_file`, `merr_strerror`, `merr_strinfo`).

Machine integers are modelled as `Nat` (unsigned, with explicit `% 2^64` where
C arithmetic wraps) and `Int` (signed values such as `errnum`, `line`, and the
sign-extended file-offset field).  Pointers are modelled as `Nat` addresses and
process memory as a function `Nat → Nat` giving the byte at each address.
C strings are modelled as `List Nat` of byte values.
-/

namespace HseErr

set_option maxRecDepth 10000

/-- Modelled from the spec: the bit-layout constants, the `EBUG` errno value and
`PATH_MAX` come from the header `hse_util/hse_err.h` (and `limits.h`), which is
not under `src/`.  The spec fixes a 64-bit packed code holding an errno
magnitude, a line number, an optional file-offset (a count of
`MERR_ALIGN`-sized units from the table base) and a single reserved bit, "each
in a fixed bit field"; the concrete widths used by the decoders in
`hse_err.c` are: errno bits 0..30, reserved bit 31, line bits 32..47,
file-offset bits 48..63, with `MERR_ALIGN = 64`. -/
def MERR_ALIGN : Nat := 64

/-- Modelled from the spec: shift of the file-offset field (bits 48..63). -/
def MERR_FILE_SHIFT : Nat := 48

/-- Modelled from the spec: shift of the line field (bits 32..47). -/
def MERR_LINE_SHIFT : Nat := 32

/-- Modelled from the spec: position of the reserved bit (bit 31). -/
def MERR_RSVD_SHIFT : Nat := 31

/-- Modelled from the spec: mask of the file-offset field. -/
def MERR_FILE_MASK : Nat := 0xFFFF000000000000

/-- Modelled from the spec: mask of the line field. -/
def MERR_LINE_MASK : Nat := 0x0000FFFF00000000

/-- Modelled from the spec: mask of the reserved bit. -/
def MERR_RSVD_MASK : Nat := 0x0000000080000000

/-- Modelled from the spec: mask of the errno field. -/
def MERR_ERRNO_MASK : Nat := 0x000000007FFFFFFF

/-- Modelled from the spec: the distinguished internal "software defect" errno
value (`EBUG` in `hse_util/hse_err.h`, not under `src/`). -/
def EBUG : Nat := 991

/-- Modelled from the spec: the backward path scan is "bounded by a maximum
path length"; `PATH_MAX` is 4096 on Linux. -/
def PATH_MAX : Nat := 4096

/-- Bytes of a string literal. -/
def strBytes (s : String) : List Nat := s.toList.map Char.toNat

/-- Two's-complement wrap of an `Int` into the 32-bit signed range; models the
effect of C `int` arithmetic such as `errnum = -errnum`. -/
def wrap32 (x : Int) : Int := (x + 2 ^ 31) % 2 ^ 32 - 2 ^ 31

/-- Conversion of a C signed value to `u64` (sign extension then reduction
mod `2^64`), as in `(u64)off` or `errnum & MERR_ERRNO_MASK`. -/
def u64ofInt (x : Int) : Nat := (x % 2 ^ 64).toNat

/-- Reinterpretation of a `u64` bit pattern as a signed 64-bit value, as in
`(s64)x`. -/
def asS64 (n : Nat) : Int := if n < 2 ^ 63 then (n : Int) else (n : Int) - 2 ^ 64

/-- Arithmetic (sign-propagating) right shift of a 64-bit pattern viewed as
`s64`, as in `(s64)x >> k`; arithmetic shift is floor division. -/
def s64_shr (n : Nat) (k : Nat) : Int := Int.fdiv (asS64 n) (2 ^ k)

/-- The link-time environment of `hse_err.c`: the addresses of the boundary
markers `__start_hse_merr` / `__stop_hse_merr`, of the base string
`hse_merr_base`, and of the four sentinel strings `hse_merr_bug0..3`. -/
structure MerrCfg where
  start : Nat
  stop : Nat
  base : Nat
  bug0 : Nat
  bug1 : Nat
  bug2 : Nat
  bug3 : Nat

/-- The range test shared by `merr_pack` (line 43) and `merr_file` (line 80):
`!(file > (char *)&__start_hse_merr || file < (char *)&__stop_hse_merr)`. -/
def outsideTable (start stop f : Nat) : Bool :=
  !(decide (start < f) || decide (f < stop))

/-- The code at the `finish:` label of `merr_pack` (lines 55-58): OR in the
reserved bit, the masked line field and the masked errno field.  `e` is the
already-computed file-offset field (0 when omitted). -/
def merr_pack_finish (e : Nat) (en line : Int) : Nat :=
  ((e ||| (1 <<< MERR_RSVD_SHIFT)) |||
      ((u64ofInt line <<< MERR_LINE_SHIFT) &&& MERR_LINE_MASK)) |||
    (u64ofInt en &&& MERR_ERRNO_MASK)

/-- Lines 47-53 of `merr_pack`: the file-offset field computed from the (range
checked) file pointer `f1`.  `IS_ALIGNED(x, MERR_ALIGN)` is `x % MERR_ALIGN = 0`;
pointer subtraction `file - hse_merr_base` is exact on `Int`, C division
truncates toward zero (`Int.tdiv`), and `(u64)off << MERR_FILE_SHIFT` wraps mod
`2^64`.  The field stays 0 when the offset does not survive the
truncate/sign-extend round trip. -/
def merr_pack_fileField (cfg : MerrCfg) (f1 : Nat) : Nat :=
  let f2 := if f1 % MERR_ALIGN = 0 then f1 else cfg.bug1
  let off : Int := Int.tdiv ((f2 : Int) - (cfg.base : Int)) (MERR_ALIGN : Int)
  let stored := (u64ofInt off <<< MERR_FILE_SHIFT) % 2 ^ 64
  if s64_shr stored MERR_FILE_SHIFT = off then stored else 0

/-- `merr_pack` (lines 25-61).  `file` is the file-identifier pointer (`none`
models a NULL `file`).  `IS_ALIGNED(x, a)` is `x % a = 0`; `sizeof(file)` is
8. -/
def merr_pack (cfg : MerrCfg) (errnum : Int) (file : Option Nat) (line : Int) : Nat :=
  if errnum = 0 then 0
  else
    let en := if errnum < 0 then wrap32 (-errnum) else errnum
    match file with
    | none => merr_pack_finish 0 en line
    | some f0 =>
      let f1 := if f0 % 8 = 0 then f0 else cfg.bug0
      if outsideTable cfg.start cfg.stop f1 then
        merr_pack_finish 0 en line
      else
        merr_pack_finish (merr_pack_fileField cfg f1) en line

/-- `merr_errno` from the header: `err & MERR_ERRNO_MASK`. -/
def merr_errno (err : Nat) : Nat := err &&& MERR_ERRNO_MASK

/-- `merr_lineno` from the header: `(err & MERR_LINE_MASK) >> MERR_LINE_SHIFT`. -/
def merr_lineno (err : Nat) : Nat := (err &&& MERR_LINE_MASK) >>> MERR_LINE_SHIFT

/-- `strnlen(p, maxlen)`: index of the first NUL byte at or after `a`, capped
at `maxlen`. -/
def strnlen (mem : Nat → Nat) (a : Nat) : Nat → Nat
  | 0 => 0
  | n + 1 => if mem a = 0 then 0 else strnlen mem (a + 1) n + 1

/-- The `n` bytes of memory starting at address `a`. -/
def readBytes (mem : Nat → Nat) (a : Nat) : Nat → List Nat
  | 0 => []
  | n + 1 => mem a :: readBytes mem (a + 1) n

/-- `isprint` in the C locale: printable characters are 0x20..0x7E. -/
def isprintB (c : Nat) : Bool := decide (32 ≤ c) && decide (c ≤ 126)

/-- The backward scan of `merr_file` (lines 90-96).  In the C loop the counter
`len` and the cursor `file` decrement in lockstep, so both are represented by
the single argument `pos` (the cursor's offset from the string start; the loop
starts with `pos = strnlen(file, PATH_MAX)` and `slash = 0`).  `*file` is
`mem (a + pos)`, `file[-1]` is `mem (a + pos - 1)`.  `none` models the
`return hse_merr_bug2` for a non-printable byte; `some k` is the final cursor
offset. -/
def merrScan (mem : Nat → Nat) (a : Nat) : Nat → Nat → Option Nat
  | 0, _ => some 0
  | pos + 1, slash =>
    if mem (a + (pos + 1)) ≠ 0 ∧ isprintB (mem (a + (pos + 1))) = false then
      none
    else if mem (a + pos) = 47 ∧ 2 ≤ slash + 1 then
      some (pos + 1)
    else
      merrScan mem a pos (if mem (a + pos) = 47 then slash + 1 else slash)

/-- The candidate address recomputed by `merr_file` at line 78:
`hse_merr_base + off * MERR_ALIGN`, with pointer arithmetic wrapping mod
`2^64` (`off` is the sign-propagating extraction of the file-offset field). -/
def merrFileAddr (cfg : MerrCfg) (err : Nat) : Nat :=
  u64ofInt ((cfg.base : Int) +
    s64_shr (err &&& MERR_FILE_MASK) MERR_FILE_SHIFT * (MERR_ALIGN : Int))

/-- `merr_file` (lines 63-99), returning the pointer the C function returns:
`none` models NULL; `some p` is the returned `const char *`.  `(merr_t)-1` is
`2^64 - 1`; the file-offset field is extracted with a sign-propagating
shift. -/
def merr_file (mem : Nat → Nat) (cfg : MerrCfg) (err : Nat) : Option Nat :=
  if err = 0 ∨ err = 2 ^ 64 - 1 then none
  else
    let off : Int := s64_shr (err &&& MERR_FILE_MASK) MERR_FILE_SHIFT
    if off = 0 then none
    else
      let f := if outsideTable cfg.start cfg.stop (merrFileAddr cfg err) then cfg.bug3
        else merrFileAddr cfg err
      let len := strnlen mem f PATH_MAX
      match merrScan mem f len 0 with
      | none => some cfg.bug2
      | some k => some (f + k)

/-- What `strlcpy(dst, src, sz)` leaves in `dst`: at most `sz - 1` bytes of
`src` (plus a terminator).  Its return value is `src`'s full length. -/
def strlcpyFit (s : List Nat) (sz : Nat) : List Nat := s.take (sz - 1)

/-- The string literal of the `EBUG` branch of `merr_strerror` (line 112). -/
def msgBug : List Nat := strBytes ("HSE software bug")

/-- The string literal of the `EINVAL` branch of `merr_strerror` (line 121). -/
def msgInvalid : List Nat := strBytes ("<invalid error code>")

/-- The string literal of the allocation-failure branch (line 134) and of the
`sz < 0` branch of `merr_strinfo` (line 155). -/
def msgFmtErr : List Nat := strBytes ("<error formating error message>")

/-- The string literal written by `merr_strinfo` for code 0 (line 179). -/
def msgSuccess : List Nat := strBytes ("success")

/-- `merr_strerror` (lines 101-141), returning (bytes left in `buf`, returned
size).  The platform `strerror_r` is the opaque dependency: `sysmsg e = none`
models an invalid errno (`EINVAL`), `sysmsg e = some msg` a description that
is written when it fits (`rc = 0`) and reported as `ERANGE` otherwise, in
which case the 1000-byte scratch retry truncates it to 999 bytes.  `mallocOk`
models whether the scratch allocation succeeds. -/
def merr_strerror (sysmsg : Nat → Option (List Nat)) (mallocOk : Bool)
    (err : Nat) (buf_sz : Nat) : List Nat × Nat :=
  let errnum := merr_errno err
  if errnum = EBUG then
    (strlcpyFit msgBug buf_sz, msgBug.length)
  else
    match sysmsg errnum with
    | none => (strlcpyFit msgInvalid buf_sz, 1 + msgInvalid.length)
    | some msg =>
      if msg.length + 1 ≤ buf_sz then
        (msg, 1 + msg.length)
      else if mallocOk = false then
        (strlcpyFit msgFmtErr buf_sz, msgFmtErr.length)
      else
        let errbuf := msg.take (1000 - 1)
        (strlcpyFit errbuf buf_sz, 1 + errbuf.length)

/-- The NUL-terminated string a caller (such as `snprintf`'s `%s`) reads at
pointer `p` (reads are bounded by `PATH_MAX`, which covers every string of the
table). -/
def readCStr (mem : Nat → Nat) (p : Nat) : List Nat :=
  readBytes mem p (strnlen mem p PATH_MAX)

/-- The location prefix `"<file>:<line>: "` composed by `merr_strinfo`
(line 153). -/
def locPre (mem : Nat → Nat) (p : Nat) (line : Nat) : List Nat :=
  readCStr mem p ++ strBytes (":") ++ strBytes (Nat.repr line) ++ strBytes (": ")

/-- `merr_strinfo` (lines 143-183), returning (bytes left in `buf`, the value
stored through `need_sz`; `none` when the code leaves `*need_sz` untouched).
`mpoolFmt` is the external domain-specific formatter `mpool_strinfo`, invoked
when the reserved bit is clear.  `snprintf` returns the full length of the
formatted string and writes at most `buf_sz - 1` bytes. -/
def merr_strinfo (mem : Nat → Nat) (cfg : MerrCfg) (sysmsg : Nat → Option (List Nat))
    (mallocOk : Bool) (mpoolFmt : Nat → Nat → List Nat × Option Nat)
    (err : Nat) (buf_sz : Nat) : List Nat × Option Nat :=
  if err ≠ 0 then
    if err &&& MERR_RSVD_MASK = 0 then
      mpoolFmt err buf_sz
    else
      let fres := merr_file mem cfg err
      let pre : List Nat :=
        match fres with
        | some p => locPre mem p (merr_lineno err)
        | none => []
      let sz : Int :=
        match fres with
        | some _ => (pre.length : Int)
        | none => 0
      if sz < 0 then
        (strlcpyFit msgFmtErr buf_sz, some msgFmtErr.length)
      else if (buf_sz : Int) ≤ sz then
        (pre.take (buf_sz - 1), some (sz.toNat + 200))
      else
        let d := merr_strerror sysmsg mallocOk err (buf_sz - sz.toNat)
        (pre ++ d.1, some (sz.toNat + d.2))
  else
    (strlcpyFit msgSuccess buf_sz, none)

/-- `pat` occurs as a contiguous substring of `l`. -/
def listContains (pat l : List Nat) : Prop := ∃ u v, l = u ++ pat ++ v

/-- A concrete link-time layout used to evaluate the model: the table spans
[4096, 8192), `hse_merr_base` is its first string, the `hse_merr_bug0..3`
sentinel strings follow at 64-byte alignment. -/
def cfgW : MerrCfg := MerrCfg.mk 4096 8192 4096 4096 4160 4224 4288

/-- A concrete memory holding the path string "a/b/c" at address 4352 (offset
4 alignment units from the base) and NUL everywhere else. -/
def memW : Nat → Nat := fun a =>
  if 4352 ≤ a ∧ a < 4357 then (strBytes ("a/b/c")).getD (a - 4352) 0 else 0

/-- A concrete memory holding the one-byte string "x" at the out-of-table
address 16384. -/
def memC1 : Nat → Nat := fun a => if a = 16384 then 120 else 0

/-- A concrete located code: errno 7, file string at 4352, line 12. -/
def errW : Nat := merr_pack cfgW 7 (some 4352) 12

/-! ### Bit-level helper lemmas -/

theorem lor_land_right (a b m : Nat) : (a ||| b) &&& m = (a &&& m) ||| (b &&& m) := by
  refine Nat.eq_of_testBit_eq fun i => ?_
  simp only [Nat.testBit_land, Nat.testBit_lor]
  cases a.testBit i <;> cases b.testBit i <;> cases m.testBit i <;> rfl

theorem land_shiftRight (x y k : Nat) : (x &&& y) >>> k = (x >>> k) &&& (y >>> k) := by
  refine Nat.eq_of_testBit_eq fun i => ?_
  simp only [Nat.testBit_shiftRight, Nat.testBit_land]

/-- A value with no bits below 48 has empty overlap with a mask below `2^48`. -/
theorem land_small_eq_zero {e M : Nat} (he : ∀ i, i < 48 → e.testBit i = false)
    (hM : M < 2 ^ 48) : e &&& M = 0 := by
  refine Nat.eq_of_testBit_eq fun i => ?_
  simp only [Nat.testBit_land, Nat.zero_testBit]
  by_cases h : i < 48
  · rw [he i h, Bool.false_and]
  · have hMi : M < 2 ^ i :=
      lt_of_lt_of_le hM (Nat.pow_le_pow_right (by norm_num) (by omega))
    rw [Nat.testBit_eq_false_of_lt hMi, Bool.and_false]

/-- The stored file-offset field has no bits below `MERR_FILE_SHIFT`. -/
theorem stored_testBit_low {x i : Nat} (h : i < 48) :
    ((x <<< MERR_FILE_SHIFT) % 2 ^ 64).testBit i = false := by
  have h48 : ¬ 48 ≤ i := by omega
  rw [Nat.testBit_mod_two_pow]
  simp only [MERR_FILE_SHIFT, Nat.testBit_shiftLeft]
  simp [h48]

theorem testBit_ite_false {c : Prop} [Decidable c] {a b i : Nat}
    (ha : a.testBit i = false) (hb : b.testBit i = false) :
    (if c then a else b).testBit i = false := by
  by_cases h : c
  · rwa [if_pos h]
  · rwa [if_neg h]

/-- The file-offset field computed by `merr_pack` has no bits below 48. -/
theorem fileField_testBit_low (cfg : MerrCfg) (f1 : Nat) {i : Nat} (hi : i < 48) :
    (merr_pack_fileField cfg f1).testBit i = false := by
  unfold merr_pack_fileField
  exact testBit_ite_false (stored_testBit_low hi) (Nat.zero_testBit i)

theorem finish_rsvd (e : Nat) (en l : Int) (he : ∀ i, i < 48 → e.testBit i = false) :
    merr_pack_finish e en l &&& MERR_RSVD_MASK = MERR_RSVD_MASK := by
  unfold merr_pack_finish
  rw [lor_land_right, lor_land_right, lor_land_right,
    land_small_eq_zero he (by decide),
    Nat.and_assoc (u64ofInt l <<< MERR_LINE_SHIFT), Nat.and_assoc (u64ofInt en),
    (by decide : MERR_LINE_MASK &&& MERR_RSVD_MASK = 0),
    (by decide : MERR_ERRNO_MASK &&& MERR_RSVD_MASK = 0),
    Nat.and_zero, Nat.and_zero,
    (by decide : (1 <<< MERR_RSVD_SHIFT) &&& MERR_RSVD_MASK = MERR_RSVD_MASK),
    Nat.zero_or, Nat.or_zero, Nat.or_zero]

theorem finish_file (e : Nat) (en l : Int) :
    merr_pack_finish e en l &&& MERR_FILE_MASK = e &&& MERR_FILE_MASK := by
  unfold merr_pack_finish
  rw [lor_land_right, lor_land_right, lor_land_right,
    Nat.and_assoc (u64ofInt l <<< MERR_LINE_SHIFT), Nat.and_assoc (u64ofInt en),
    (by decide : MERR_LINE_MASK &&& MERR_FILE_MASK = 0),
    (by decide : MERR_ERRNO_MASK &&& MERR_FILE_MASK = 0),
    (by decide : (1 <<< MERR_RSVD_SHIFT) &&& MERR_FILE_MASK = 0),
    Nat.and_zero, Nat.and_zero, Nat.or_zero, Nat.or_zero, Nat.or_zero]

theorem finish_errno (e : Nat) (en l : Int) (he : ∀ i, i < 48 → e.testBit i = false) :
    merr_errno (merr_pack_finish e en l) = u64ofInt en &&& MERR_ERRNO_MASK := by
  unfold merr_errno merr_pack_finish
  rw [lor_land_right, lor_land_right, lor_land_right,
    land_small_eq_zero he (by decide),
    Nat.and_assoc (u64ofInt l <<< MERR_LINE_SHIFT), Nat.and_assoc (u64ofInt en),
    (by decide : MERR_LINE_MASK &&& MERR_ERRNO_MASK = 0),
    (by decide : MERR_ERRNO_MASK &&& MERR_ERRNO_MASK = MERR_ERRNO_MASK),
    (by decide : (1 <<< MERR_RSVD_SHIFT) &&& MERR_ERRNO_MASK = 0),
    Nat.and_zero, Nat.zero_or, Nat.zero_or, Nat.zero_or]

theorem finish_lineno (e : Nat) (en l : Int) (he : ∀ i, i < 48 → e.testBit i = false) :
    merr_lineno (merr_pack_finish e en l) = u64ofInt l % 2 ^ 16 := by
  unfold merr_lineno merr_pack_finish
  rw [lor_land_right, lor_land_right, lor_land_right,
    land_small_eq_zero he (by decide),
    Nat.and_assoc (u64ofInt l <<< MERR_LINE_SHIFT), Nat.and_assoc (u64ofInt en),
    (by decide : MERR_LINE_MASK &&& MERR_LINE_MASK = MERR_LINE_MASK),
    (by decide : MERR_ERRNO_MASK &&& MERR_LINE_MASK = 0),
    (by decide : (1 <<< MERR_RSVD_SHIFT) &&& MERR_LINE_MASK = 0),
    Nat.and_zero, Nat.zero_or, Nat.zero_or, Nat.or_zero,
    land_shiftRight,
    (by decide : MERR_LINE_MASK >>> MERR_LINE_SHIFT = 2 ^ 16 - 1),
    Nat.and_pow_two_sub_one_eq_mod]
  rw [Nat.shiftLeft_eq, MERR_LINE_SHIFT, Nat.shiftRight_eq_div_pow,
    Nat.mul_div_cancel _ (by norm_num)]

theorem wrap32_id {x : Int} (h0 : 0 ≤ x) (h1 : x < 2 ^ 31) : wrap32 x = x := by
  unfold wrap32
  rw [Int.emod_eq_of_lt (by omega) (by omega)]
  omega

theorem u64ofInt_small {x : Int} (h0 : 0 ≤ x) (h1 : x < 2 ^ 64) :
    (u64ofInt x : Int) = x := by
  unfold u64ofInt
  rw [Int.emod_eq_of_lt h0 h1, Int.toNat_of_nonneg h0]

/-- Whatever the file identifier, a nonzero errno packs to `merr_pack_finish`
applied to a file-offset field with no bits below 48. -/
theorem merr_pack_shape (cfg : MerrCfg) (errnum : Int) (file : Option Nat) (line : Int)
    (h : ¬ errnum = 0) :
    ∃ e, merr_pack cfg errnum file line =
        merr_pack_finish e (if errnum < 0 then wrap32 (-errnum) else errnum) line ∧
      ∀ i, i < 48 → e.testBit i = false := by
  cases file with
  | none =>
    simp only [merr_pack, if_neg h]
    exact ⟨0, rfl, fun i _ => Nat.zero_testBit i⟩
  | some f0 =>
    simp only [merr_pack, if_neg h]
    by_cases hout : outsideTable cfg.start cfg.stop (if f0 % 8 = 0 then f0 else cfg.bug0) = true
    · rw [if_pos hout]
      exact ⟨0, rfl, fun i _ => Nat.zero_testBit i⟩
    · rw [if_neg hout]
      exact ⟨_, rfl, fun i hi => fileField_testBit_low cfg _ hi⟩

theorem outsideTable_eq_false {start stop : Nat} (h : start < stop) (f : Nat) :
    outsideTable start stop f = false := by
  have hor : start < f ∨ f < stop := by omega
  rcases hor with h1 | h1 <;> simp [outsideTable, h1]

/-! ### String-scan helper lemmas -/

theorem strnlen_pos (mem : Nat → Nat) (m : Nat) :
    ∀ a i, i < strnlen mem a m → mem (a + i) ≠ 0 := by
  induction m with
  | zero =>
    intro a i hi
    simp [strnlen] at hi
  | succ n ih =>
    intro a i hi
    simp only [strnlen] at hi
    by_cases h : mem a = 0
    · rw [if_pos h] at hi
      exact absurd hi (Nat.not_lt_zero i)
    · rw [if_neg h] at hi
      cases i with
      | zero => simpa using h
      | succ j =>
        have hj := ih (a + 1) j (by omega)
        have heq : a + 1 + j = a + (j + 1) := by omega
        rwa [heq] at hj

theorem strnlen_nul (mem : Nat → Nat) (m : Nat) :
    ∀ a, strnlen mem a m < m → mem (a + strnlen mem a m) = 0 := by
  induction m with
  | zero =>
    intro a h
    exact absurd h (Nat.not_lt_zero _)
  | succ n ih =>
    intro a h
    simp only [strnlen] at h ⊢
    by_cases h0 : mem a = 0
    · rw [if_pos h0]
      simpa using h0
    · rw [if_neg h0] at h ⊢
      have hrec := ih (a + 1) (by omega)
      have heq : a + 1 + strnlen mem (a + 1) n = a + (strnlen mem (a + 1) n + 1) := by omega
      rwa [heq] at hrec

theorem strnlen_eq (mem : Nat → Nat) (n : Nat) :
    ∀ b m, (∀ i, i < n → mem (b + i) ≠ 0) → mem (b + n) = 0 → n < m →
      strnlen mem b m = n := by
  induction n with
  | zero =>
    intro b m _ hnul hnm
    cases m with
    | zero => omega
    | succ m0 =>
      simp only [strnlen]
      rw [if_pos (by simpa using hnul)]
  | succ n0 ih =>
    intro b m hpos hnul hnm
    cases m with
    | zero => omega
    | succ m0 =>
      simp only [strnlen]
      rw [if_neg (by simpa using hpos 0 (by omega))]
      rw [ih (b + 1) m0
        (fun i hi => by
          have hp := hpos (i + 1) (by omega)
          have heq : b + 1 + i = b + (i + 1) := by omega
          rwa [heq])
        (by
          have heq : b + 1 + n0 = b + (n0 + 1) := by omega
          rw [heq]
          exact hnul)
        (by omega)]

theorem readBytes_eq_cons (mem : Nat → Nat) (b n : Nat) (h : 0 < n) :
    readBytes mem b n = mem b :: readBytes mem (b + 1) (n - 1) := by
  cases n with
  | zero => omega
  | succ m => rfl

theorem readBytes_drop (mem : Nat → Nat) :
    ∀ n k a, k ≤ n → (readBytes mem a n).drop k = readBytes mem (a + k) (n - k) := by
  intro n
  induction n with
  | zero =>
    intro k a hk
    have hz : k = 0 := by omega
    subst hz
    rfl
  | succ m ih =>
    intro k a hk
    cases k with
    | zero => rfl
    | succ j =>
      simp only [readBytes, List.drop_succ_cons]
      rw [ih j (a + 1) (by omega)]
      have heq : a + 1 + j = a + (j + 1) := by omega
      have heq2 : m + 1 - (j + 1) = m - j := by omega
      rw [heq, heq2]

/-- When the backward scan of `merr_file` aborts with the unprintable-location
sentinel, a non-NUL non-printable byte occurs in the interior of the
NUL-terminated string being scanned. -/
theorem merrScan_none (mem : Nat → Nat) (a len : Nat) (hnul : mem (a + len) = 0) :
    ∀ pos, pos ≤ len → ∀ slash, merrScan mem a pos slash = none →
      ∃ i, 0 < i ∧ i < len ∧ mem (a + i) ≠ 0 ∧ isprintB (mem (a + i)) = false := by
  intro pos
  induction pos with
  | zero =>
    intro _ slash hk
    simp [merrScan] at hk
  | succ p ih =>
    intro hle slash hk
    simp only [merrScan] at hk
    by_cases hbad : mem (a + (p + 1)) ≠ 0 ∧ isprintB (mem (a + (p + 1))) = false
    · refine ⟨p + 1, by omega, ?_, hbad.1, hbad.2⟩
      rcases Nat.lt_or_ge (p + 1) len with hl | hg
      · exact hl
      · exfalso
        have heq : p + 1 = len := by omega
        rw [heq] at hbad
        exact hbad.1 hnul
    · rw [if_neg hbad] at hk
      by_cases hbrk : mem (a + p) = 47 ∧ 2 ≤ slash + 1
      · rw [if_pos hbrk] at hk
        cases hk
      · rw [if_neg hbrk] at hk
        exact ih (by omega) _ hk

/-- When the backward scan of `merr_file` stops normally, the final cursor
offset is within the scanned range and the remaining suffix holds at most one
'/' separator — i.e. at most the last two path components. -/
theorem merrScan_some (mem : Nat → Nat) (a len : Nat) :
    ∀ pos, pos ≤ len → ∀ slash,
      slash = (readBytes mem (a + pos) (len - pos)).count 47 → slash ≤ 1 →
      ∀ k, merrScan mem a pos slash = some k →
        k ≤ pos ∧ (readBytes mem (a + k) (len - k)).count 47 ≤ 1 := by
  intro pos
  induction pos with
  | zero =>
    intro _ slash hinv hs1 k hk
    simp only [merrScan] at hk
    injection hk with h
    subst h
    refine ⟨Nat.le_refl 0, ?_⟩
    rw [← hinv]
    exact hs1
  | succ p ih =>
    intro hle slash hinv hs1 k hk
    simp only [merrScan] at hk
    by_cases hbad : mem (a + (p + 1)) ≠ 0 ∧ isprintB (mem (a + (p + 1))) = false
    · rw [if_pos hbad] at hk
      cases hk
    · rw [if_neg hbad] at hk
      by_cases hbrk : mem (a + p) = 47 ∧ 2 ≤ slash + 1
      · rw [if_pos hbrk] at hk
        injection hk with h
        subst h
        refine ⟨Nat.le_refl _, ?_⟩
        rw [← hinv]
        exact hs1
      · rw [if_neg hbrk] at hk
        have hcons : readBytes mem (a + p) (len - p) =
            mem (a + p) :: readBytes mem (a + p + 1) (len - p - 1) :=
          readBytes_eq_cons mem (a + p) (len - p) (by omega)
        have htail : (readBytes mem (a + p + 1) (len - p - 1)).count 47 = slash :=
          hinv.symm
        by_cases h47 : mem (a + p) = 47
        · have hs0 : slash = 0 := by
            rcases Nat.lt_or_ge (slash + 1) 2 with hl | hg
            · omega
            · exact absurd ⟨h47, hg⟩ hbrk
          rw [if_pos h47] at hk
          refine (ih (by omega) (slash + 1) ?_ (by omega) k hk).imp (fun hh => by omega) id
          rw [hcons, List.count_cons, htail]
          simp [h47]
        · rw [if_neg h47] at hk
          refine (ih (by omega) slash ?_ hs1 k hk).imp (fun hh => by omega) id
          rw [hcons, List.count_cons, htail]
          simp [h47]

/-! ### Claim theorems -/

/-- C10: for every file identifier `f` (including none, misaligned, or
out-of-range pointers) and every line `l`, `merr_pack 0 f l = 0`. -/
theorem C10_pack_zero_errno (cfg : MerrCfg) (file : Option Nat) (line : Int) :
    merr_pack cfg 0 file line = 0 := by
  simp [merr_pack]

/-- C2: whenever the boundary markers satisfy `__start_hse_merr <
__stop_hse_merr`, the range test `!(file > start || file < stop)` used both by
`merr_pack` (line 43) and `merr_file` (line 80) is false for every pointer
value, so neither out-of-range fallback branch can be taken. -/
theorem C2_range_check_vacuous (cfg : MerrCfg) (h : cfg.start < cfg.stop) (f : Nat) :
    outsideTable cfg.start cfg.stop f = false :=
  outsideTable_eq_false h f

theorem C2_range_check_vacuous_witness :
    (MerrCfg.mk 0 1 0 0 0 0 0).start < (MerrCfg.mk 0 1 0 0 0 0 0).stop ∧
      outsideTable 0 1 5 = false :=
  ⟨by decide, C2_range_check_vacuous (MerrCfg.mk 0 1 0 0 0 0 0) (by decide) 5⟩

/-- C8: `merr_file` returns NULL exactly when the packed code is 0, is the
all-ones sentinel `(merr_t)-1`, or has a file-offset field whose
sign-propagating extraction is zero. -/
theorem C8_file_none_iff (mem : Nat → Nat) (cfg : MerrCfg) (err : Nat) :
    merr_file mem cfg err = none ↔
      err = 0 ∨ err = 2 ^ 64 - 1 ∨
        s64_shr (err &&& MERR_FILE_MASK) MERR_FILE_SHIFT = 0 := by
  simp only [merr_file]
  by_cases h1 : err = 0 ∨ err = 2 ^ 64 - 1
  · rw [if_pos h1]
    exact ⟨fun _ => h1.elim Or.inl (fun h => Or.inr (Or.inl h)), fun _ => rfl⟩
  · rw [if_neg h1]
    by_cases h2 : s64_shr (err &&& MERR_FILE_MASK) MERR_FILE_SHIFT = 0
    · rw [if_pos h2]
      exact ⟨fun _ => Or.inr (Or.inr h2), fun _ => rfl⟩
    · rw [if_neg h2]
      constructor
      · intro hc
        split at hc <;> simp at hc
      · intro hor
        rcases hor with h | h | h
        · exact absurd (Or.inl h) h1
        · exact absurd (Or.inr h) h1
        · exact absurd h h2

/-- C3: for a nonzero errno whose magnitude fits the 31-bit errno field (the
sign is discarded) and a line in the 16-bit line field's range, packing with no
file identifier sets the reserved bit, leaves the file-offset field zero, and
`merr_errno` / `merr_lineno` recover the errno magnitude and the line
exactly. -/
theorem C3_pack_no_file_roundtrip (cfg : MerrCfg) (e l : Int)
    (he0 : e ≠ 0) (heR : e.natAbs ≤ 2 ^ 31 - 1) (hl0 : 0 ≤ l) (hlR : l ≤ 2 ^ 16 - 1) :
    merr_pack cfg e none l &&& MERR_RSVD_MASK = MERR_RSVD_MASK ∧
    merr_pack cfg e none l &&& MERR_FILE_MASK = 0 ∧
    merr_errno (merr_pack cfg e none l) = e.natAbs ∧
    merr_lineno (merr_pack cfg e none l) = l.toNat := by
  have hpack : merr_pack cfg e none l =
      merr_pack_finish 0 (if e < 0 then wrap32 (-e) else e) l := by
    simp only [merr_pack, if_neg he0]
  have hen : (if e < 0 then wrap32 (-e) else e) = (e.natAbs : Int) := by
    by_cases hneg : e < 0
    · rw [if_pos hneg, wrap32_id (by omega) (by omega)]
      omega
    · rw [if_neg hneg]
      omega
  have hzero : ∀ i, i < 48 → (0 : Nat).testBit i = false := fun i _ => Nat.zero_testBit i
  have habs : u64ofInt (e.natAbs : Int) = e.natAbs := by
    have := u64ofInt_small (x := (e.natAbs : Int)) (by omega) (by omega)
    omega
  have hline : u64ofInt l = l.toNat := by
    have := u64ofInt_small (x := l) hl0 (by omega)
    omega
  rw [hpack, hen]
  refine ⟨finish_rsvd _ _ _ hzero, ?_, ?_, ?_⟩
  · rw [finish_file]
    exact Nat.zero_and _
  · rw [finish_errno _ _ _ hzero, habs,
      (by norm_num [MERR_ERRNO_MASK] : MERR_ERRNO_MASK = 2 ^ 31 - 1),
      Nat.and_pow_two_sub_one_eq_mod, Nat.mod_eq_of_lt (by omega)]
  · rw [finish_lineno _ _ _ hzero, hline, Nat.mod_eq_of_lt (by omega)]

theorem C3_pack_no_file_roundtrip_witness :
    ((-7 : Int) ≠ 0 ∧ (-7 : Int).natAbs ≤ 2 ^ 31 - 1 ∧
        (0 : Int) ≤ 12 ∧ (12 : Int) ≤ 2 ^ 16 - 1) ∧
      (merr_pack (MerrCfg.mk 4096 8192 4096 4096 4160 4224 4288) (-7) none 12 &&&
            MERR_RSVD_MASK = MERR_RSVD_MASK ∧
        merr_pack (MerrCfg.mk 4096 8192 4096 4096 4160 4224 4288) (-7) none 12 &&&
            MERR_FILE_MASK = 0 ∧
        merr_errno (merr_pack (MerrCfg.mk 4096 8192 4096 4096 4160 4224 4288) (-7) none 12) =
            (-7 : Int).natAbs ∧
        merr_lineno (merr_pack (MerrCfg.mk 4096 8192 4096 4096 4160 4224 4288) (-7) none 12) =
            (12 : Int).toNat) :=
  ⟨⟨by decide, by decide, by decide, by decide⟩,
    C3_pack_no_file_roundtrip (MerrCfg.mk 4096 8192 4096 4096 4160 4224 4288) (-7) 12
      (by decide) (by decide) (by decide) (by decide)⟩

/-- C7 counterexample: with the table base at 4160, the 64-aligned in-process
pointer 4096 gives file offset -1; together with errno `0x7FFFFFFF` and line
65535 the encoder produces exactly the all-bits-set sentinel. -/
theorem C7_counterexample :
    merr_pack (MerrCfg.mk 4096 8192 4160 4096 4160 4224 4288) 0x7FFFFFFF (some 4096) 65535 =
      2 ^ 64 - 1 := by
  decide

/-- C7 (amended): `merr_pack` never returns the all-bits-set sentinel provided
the (sign-adjusted) errno does not fill the whole 31-bit errno field; with
errno field, reserved bit, line field and file field together tiling all 64
bits, an errno field of all ones combined with extreme line and file-offset
values does reach the sentinel, as the counterexample shows. -/
theorem C7_pack_ne_all_ones (cfg : MerrCfg) (errnum : Int) (file : Option Nat) (line : Int)
    (h : u64ofInt (if errnum < 0 then wrap32 (-errnum) else errnum) &&& MERR_ERRNO_MASK ≠
      MERR_ERRNO_MASK) :
    merr_pack cfg errnum file line ≠ 2 ^ 64 - 1 := by
  by_cases h0 : errnum = 0
  · subst h0
    have hz : merr_pack cfg 0 file line = 0 := by simp [merr_pack]
    rw [hz]
    decide
  · obtain ⟨e, hpack, he⟩ := merr_pack_shape cfg errnum file line h0
    intro hcontra
    apply h
    have h1 : merr_errno (merr_pack cfg errnum file line) =
        u64ofInt (if errnum < 0 then wrap32 (-errnum) else errnum) &&& MERR_ERRNO_MASK := by
      rw [hpack]
      exact finish_errno _ _ _ he
    rw [hcontra, (by decide : merr_errno (2 ^ 64 - 1) = MERR_ERRNO_MASK)] at h1
    exact h1.symm

theorem C7_pack_ne_all_ones_witness :
    (u64ofInt (if (7 : Int) < 0 then wrap32 (-(7 : Int)) else 7) &&& MERR_ERRNO_MASK ≠
        MERR_ERRNO_MASK) ∧
      merr_pack (MerrCfg.mk 4096 8192 4096 4096 4160 4224 4288) 7 (some 4096) 3 ≠ 2 ^ 64 - 1 :=
  ⟨by decide,
    C7_pack_ne_all_ones (MerrCfg.mk 4096 8192 4096 4096 4160 4224 4288) 7 (some 4096) 3
      (by decide)⟩

/-- C1 (evaluation at the failing input): the file identifier 16384 lies
outside the table range [4096, 8192) of `cfgW`, yet `merr_pack` stores a
nonzero file-offset field for it (the range check at line 43 is unsatisfiable,
see C2), and `merr_file` consequently returns a location rather than NULL —
contradicting the claimed "file-offset field is omitted, so that decoding that
code yields no location". -/
theorem C1_outside_file_offset_stored :
    (¬ (cfgW.start ≤ 16384 ∧ 16384 < cfgW.stop)) ∧
    merr_pack cfgW 1 (some 16384) 1 &&& MERR_FILE_MASK ≠ 0 ∧
    merr_file memC1 cfgW (merr_pack cfgW 1 (some 16384) 1) ≠ none :=
  ⟨by decide, by decide, by decide⟩

/-- C4 counterexample: for a packed code whose errno field is `EBUG`, the
software-defect branch of `merr_strerror` (line 112) returns `strlcpy`'s
return value — the bare string length 16 of "HSE software bug" — and not the
length-plus-terminator 17 the claim requires of every branch. -/
theorem C4_counterexample :
    merr_strerror (fun _ => none) true (merr_pack cfgW 991 none 7) 64 =
      (msgBug, msgBug.length) ∧
    (merr_strerror (fun _ => none) true (merr_pack cfgW 991 none 7) 64).2 ≠
      msgBug.length + 1 :=
  ⟨by decide, by decide⟩

/-- C4 (amended): `merr_strerror` returns the full description length plus one
for the terminator in the successful platform lookup, in the invalid-code
fallback, and in the buffer-too-small retry (scratch buffer obtained and the
message within its 999-byte capacity); in the software-defect (`EBUG`) branch
it instead returns the bare length of "HSE software bug", without the +1. -/
theorem C4_strerror_sizes (sysmsg : Nat → Option (List Nat)) (mallocOk : Bool)
    (err : Nat) (buf_sz : Nat) :
    (merr_errno err = EBUG →
      (merr_strerror sysmsg mallocOk err buf_sz).2 = msgBug.length) ∧
    (merr_errno err ≠ EBUG → sysmsg (merr_errno err) = none →
      (merr_strerror sysmsg mallocOk err buf_sz).2 = msgInvalid.length + 1) ∧
    (∀ msg, merr_errno err ≠ EBUG → sysmsg (merr_errno err) = some msg →
      msg.length + 1 ≤ buf_sz →
      (merr_strerror sysmsg mallocOk err buf_sz).2 = msg.length + 1) ∧
    (∀ msg, merr_errno err ≠ EBUG → sysmsg (merr_errno err) = some msg →
      ¬ msg.length + 1 ≤ buf_sz → mallocOk = true → msg.length ≤ 999 →
      (merr_strerror sysmsg mallocOk err buf_sz).2 = msg.length + 1) := by
  refine ⟨?_, ?_, ?_, ?_⟩
  · intro hE
    simp only [merr_strerror, if_pos hE]
  · intro hE hnone
    simp only [merr_strerror, if_neg hE, hnone]
    omega
  · intro msg hE hsome hfit
    simp only [merr_strerror, if_neg hE, hsome, if_pos hfit]
    omega
  · intro msg hE hsome hnofit hmal hlen
    simp only [merr_strerror, if_neg hE, hsome, if_neg hnofit, hmal]
    simp only [Bool.true_eq_false, if_false]
    rw [List.take_of_length_le (le_trans hlen (by norm_num))]
    omega

theorem C4_strerror_sizes_witness :
    merr_errno (merr_pack cfgW 991 none 7) = EBUG ∧
    (merr_strerror (fun _ => none) true (merr_pack cfgW 991 none 7) 64).2 = msgBug.length :=
  ⟨by decide,
    (C4_strerror_sizes (fun _ => none) true (merr_pack cfgW 991 none 7) 64).1 (by decide)⟩

/-- C5: when the reserved bit is set, a location prefix is produced, and the
prefix alone does not fit the buffer (snprintf result ≥ buf_sz), the errno
description is not attempted: the buffer holds only the truncated prefix and
the reported required size is the full prefix length plus the fixed 200-byte
margin, which is at least the prefix length. -/
theorem C5_prefix_too_small (mem : Nat → Nat) (cfg : MerrCfg)
    (sysmsg : Nat → Option (List Nat)) (mallocOk : Bool)
    (mpoolFmt : Nat → Nat → List Nat × Option Nat) (err buf_sz p : Nat)
    (h0 : err ≠ 0) (hr : err &&& MERR_RSVD_MASK ≠ 0)
    (hf : merr_file mem cfg err = some p)
    (hsz : buf_sz ≤ (locPre mem p (merr_lineno err)).length) :
    merr_strinfo mem cfg sysmsg mallocOk mpoolFmt err buf_sz =
      ((locPre mem p (merr_lineno err)).take (buf_sz - 1),
        some ((locPre mem p (merr_lineno err)).length + 200)) ∧
    (locPre mem p (merr_lineno err)).length ≤
      (locPre mem p (merr_lineno err)).length + 200 := by
  refine ⟨?_, Nat.le_add_right _ _⟩
  simp only [merr_strinfo, if_pos h0, if_neg hr, hf]
  rw [if_neg (by omega), if_pos (by exact_mod_cast hsz)]
  simp

theorem C5_prefix_too_small_witness :
    (merr_pack cfgW 7 (some 4352) 12 ≠ 0 ∧
      merr_pack cfgW 7 (some 4352) 12 &&& MERR_RSVD_MASK ≠ 0 ∧
      merr_file memW cfgW (merr_pack cfgW 7 (some 4352) 12) = some 4354 ∧
      4 ≤ (locPre memW 4354 (merr_lineno (merr_pack cfgW 7 (some 4352) 12))).length) ∧
    (merr_strinfo memW cfgW (fun _ => none) true (fun _ _ => ([], none))
        (merr_pack cfgW 7 (some 4352) 12) 4 =
      ((locPre memW 4354 (merr_lineno (merr_pack cfgW 7 (some 4352) 12))).take (4 - 1),
        some ((locPre memW 4354 (merr_lineno (merr_pack cfgW 7 (some 4352) 12))).length + 200)) ∧
      (locPre memW 4354 (merr_lineno (merr_pack cfgW 7 (some 4352) 12))).length ≤
        (locPre memW 4354 (merr_lineno (merr_pack cfgW 7 (some 4352) 12))).length + 200) :=
  ⟨⟨by decide, by decide, by decide, by decide⟩,
    C5_prefix_too_small memW cfgW (fun _ => none) true (fun _ _ => ([], none))
      (merr_pack cfgW 7 (some 4352) 12) 4 4354
      (by decide) (by decide) (by decide) (by decide)⟩

/-- C9: formatting a code packed with the software-defect errno `EBUG` always
yields a buffer containing "HSE software bug", for every file identifier, line
and sufficiently large buffer (at least the location prefix, if any, plus 17
bytes); the conclusion holds uniformly in `sysmsg`, i.e. the platform errno
lookup is bypassed. -/
theorem C9_bug_string (mem : Nat → Nat) (cfg : MerrCfg) (sysmsg : Nat → Option (List Nat))
    (mallocOk : Bool) (mpoolFmt : Nat → Nat → List Nat × Option Nat)
    (file : Option Nat) (line : Int) (buf_sz : Nat)
    (hbig : 17 ≤ buf_sz)
    (hpre : ∀ p, merr_file mem cfg (merr_pack cfg (EBUG : Int) file line) = some p →
      (locPre mem p (merr_lineno (merr_pack cfg (EBUG : Int) file line))).length + 17 ≤ buf_sz) :
    listContains msgBug
      (merr_strinfo mem cfg sysmsg mallocOk mpoolFmt
        (merr_pack cfg (EBUG : Int) file line) buf_sz).1 := by
  obtain ⟨e, hpack, he⟩ := merr_pack_shape cfg (EBUG : Int) file line (by decide)
  have herrno : merr_errno (merr_pack cfg (EBUG : Int) file line) = EBUG := by
    rw [hpack, finish_errno _ _ _ he]
    decide
  have hrsvd : merr_pack cfg (EBUG : Int) file line &&& MERR_RSVD_MASK = MERR_RSVD_MASK := by
    rw [hpack]
    exact finish_rsvd _ _ _ he
  have h0 : merr_pack cfg (EBUG : Int) file line ≠ 0 := by
    intro hc
    rw [hc] at hrsvd
    exact absurd hrsvd (by decide)
  have hr : ¬ merr_pack cfg (EBUG : Int) file line &&& MERR_RSVD_MASK = 0 := by
    rw [hrsvd]
    decide
  have hlen : msgBug.length = 16 := by decide
  cases hf : merr_file mem cfg (merr_pack cfg (EBUG : Int) file line) with
  | none =>
    simp only [merr_strinfo, if_pos h0, if_neg hr, hf]
    rw [if_neg (by omega), if_neg (by omega)]
    simp only [merr_strerror, if_pos herrno, Int.toNat_zero, Nat.sub_zero]
    rw [strlcpyFit, List.take_of_length_le (by omega)]
    exact ⟨[], [], by simp⟩
  | some p =>
    have hplen := hpre p hf
    simp only [merr_strinfo, if_pos h0, if_neg hr, hf]
    rw [if_neg (by omega), if_neg (by exact_mod_cast (by omega :
      ¬ buf_sz ≤ (locPre mem p (merr_lineno (merr_pack cfg (EBUG : Int) file line))).length))]
    simp only [merr_strerror, if_pos herrno, Int.toNat_natCast]
    rw [strlcpyFit, List.take_of_length_le (by omega)]
    exact ⟨locPre mem p (merr_lineno (merr_pack cfg (EBUG : Int) file line)), [], by simp⟩

theorem C9_bug_string_witness :
    (17 ≤ 24) ∧
    listContains msgBug
      (merr_strinfo memW cfgW (fun _ => none) true (fun _ _ => ([], none))
        (merr_pack cfgW (EBUG : Int) (some 4352) 3) 24).1 :=
  ⟨by decide,
    C9_bug_string memW cfgW (fun _ => none) true (fun _ _ => ([], none)) (some 4352) 3 24
      (by decide)
      (by
        intro p hp
        rw [(by decide : merr_file memW cfgW (merr_pack cfgW (EBUG : Int) (some 4352) 3) =
          some 4354)] at hp
        injection hp with h
        subst h
        decide)⟩

/-- C6: for a located code whose nonzero file-offset field resolves (under
valid boundary markers) to a NUL-terminated string shorter than `PATH_MAX`,
`merr_file` either returns a pointer `addr + k` into that string — the string
read there being a suffix of the path holding at most one '/' separator, i.e.
at most its last two '/'-delimited components, found by the backward scan —
or returns the fixed `hse_merr_bug2` unprintable-location sentinel, in which
case a non-NUL non-printable byte indeed occurs in the interior of the
string. -/
theorem C6_file_last_two_components (mem : Nat → Nat) (cfg : MerrCfg) (err : Nat)
    (hstart : cfg.start < cfg.stop)
    (h0 : ¬ (err = 0 ∨ err = 2 ^ 64 - 1))
    (hoff : ¬ s64_shr (err &&& MERR_FILE_MASK) MERR_FILE_SHIFT = 0)
    (hterm : strnlen mem (merrFileAddr cfg err) PATH_MAX < PATH_MAX) :
    (merr_file mem cfg err = some cfg.bug2 ∧
      ∃ i, 0 < i ∧ i < strnlen mem (merrFileAddr cfg err) PATH_MAX ∧
        mem (merrFileAddr cfg err + i) ≠ 0 ∧
        isprintB (mem (merrFileAddr cfg err + i)) = false) ∨
    (∃ k, k ≤ strnlen mem (merrFileAddr cfg err) PATH_MAX ∧
      merr_file mem cfg err = some (merrFileAddr cfg err + k) ∧
      readCStr mem (merrFileAddr cfg err + k) =
        (readBytes mem (merrFileAddr cfg err)
          (strnlen mem (merrFileAddr cfg err) PATH_MAX)).drop k ∧
      ((readBytes mem (merrFileAddr cfg err)
          (strnlen mem (merrFileAddr cfg err) PATH_MAX)).drop k).count 47 ≤ 1) := by
  have hout : outsideTable cfg.start cfg.stop (merrFileAddr cfg err) = false :=
    outsideTable_eq_false hstart _
  have hfile : merr_file mem cfg err =
      match merrScan mem (merrFileAddr cfg err)
          (strnlen mem (merrFileAddr cfg err) PATH_MAX) 0 with
      | none => some cfg.bug2
      | some k => some (merrFileAddr cfg err + k) := by
    simp only [merr_file, if_neg h0, if_neg hoff, hout]
    simp
  set A := merrFileAddr cfg err with hA
  set len := strnlen mem A PATH_MAX with hlendef
  have hnul : mem (A + len) = 0 := strnlen_nul mem PATH_MAX A hterm
  cases hscan : merrScan mem A len 0 with
  | none =>
    left
    constructor
    · rw [hfile, hscan]
    · exact merrScan_none mem A len hnul len (Nat.le_refl _) 0 hscan
  | some k =>
    right
    obtain ⟨hkle, hcnt⟩ :=
      merrScan_some mem A len len (Nat.le_refl _) 0
        (by simp [Nat.sub_self, readBytes]) (by omega) k hscan
    have hsh : strnlen mem (A + k) PATH_MAX = len - k := by
      refine strnlen_eq mem (len - k) (A + k) PATH_MAX
        (fun i hi => ?_) ?_ (by omega)
      · have hp := strnlen_pos mem PATH_MAX A (k + i) (by omega)
        have heq : A + k + i = A + (k + i) := by omega
        rwa [heq]
      · have heq : A + k + (len - k) = A + len := by omega
        rw [heq]
        exact hnul
    refine ⟨k, hkle, ?_, ?_, ?_⟩
    · rw [hfile, hscan]
    · rw [readCStr, hsh, readBytes_drop mem len k A hkle]
    · rw [readBytes_drop mem len k A hkle]
      exact hcnt

theorem C6_file_last_two_components_witness :
    (cfgW.start < cfgW.stop ∧ ¬ (errW = 0 ∨ errW = 2 ^ 64 - 1) ∧
      ¬ s64_shr (errW &&& MERR_FILE_MASK) MERR_FILE_SHIFT = 0 ∧
      strnlen memW (merrFileAddr cfgW errW) PATH_MAX < PATH_MAX) ∧
    ((merr_file memW cfgW errW = some cfgW.bug2 ∧
        ∃ i, 0 < i ∧ i < strnlen memW (merrFileAddr cfgW errW) PATH_MAX ∧
          memW (merrFileAddr cfgW errW + i) ≠ 0 ∧
          isprintB (memW (merrFileAddr cfgW errW + i)) = false) ∨
      (∃ k, k ≤ strnlen memW (merrFileAddr cfgW errW) PATH_MAX ∧
        merr_file memW cfgW errW = some (merrFileAddr cfgW errW + k) ∧
        readCStr memW (merrFileAddr cfgW errW + k) =
          (readBytes memW (merrFileAddr cfgW errW)
            (strnlen memW (merrFileAddr cfgW errW) PATH_MAX)).drop k ∧
        ((readBytes memW (merrFileAddr cfgW errW)
            (strnlen memW (merrFileAddr cfgW errW) PATH_MAX)).drop k).count 47 ≤ 1)) :=
  ⟨⟨by decide, by decide, by decide, by decide⟩,
    C6_file_last_two_components memW cfgW errW (by decide) (by decide) (by decide) (by decide)⟩

end HseErr
